import Mathlib

/-!
Verification of the command-interpretation core of the repository
codecrafters-shell-rust against its natural-language specification.

The Rust sources are shallowly embedded as Lean definitions:

* namespace `Shell`    — the shared data model (src/redirect.rs and
  src/main.rs): `RedirectionMode`, `RedirectFile`, `Redirections`, and
  `parse_redirections` (that function is textually identical in main.rs
  and redirect.rs).
* namespace `MainRs`   — the functions of src/main.rs: the tokenizer
  `parse_tokens`, the executable lookup `find_exec_in_path`, the builtin
  `handle_echo`, the pure control skeleton of `execute_external_command`,
  and the result sink `handle_command_result` (modelled as an explicit
  list of I/O effects).
* namespace `ParserRs` — the second tokenizer, from src/parser.rs.

Rust strings are embedded as Lean strings; the tokenizer state carries the
current argument as a `List Char` (the Rust push of a char becomes `++ [c]`).
Filesystem and environment state are passed explicitly.
-/

namespace Shell

/-- Backslash character (code 92), constant `BACKSLASH` of the source. -/
def BACKSLASH : Char := Char.ofNat 92

/-- Single quote character (code 39), constant `SINGLE_QUOTE` of the source. -/
def SINGLE_QUOTE : Char := Char.ofNat 39

/-- Double quote character (code 34), constant `DOUBLE_QUOTE` of the source. -/
def DOUBLE_QUOTE : Char := Char.ofNat 34

/-- Dollar character (code 36), member of the double-quote escape set. -/
def DOLLAR : Char := Char.ofNat 36

/-- Backquote character (code 96), member of the double-quote escape set. -/
def BACKQUOTE : Char := Char.ofNat 96

/-- `RedirectionMode` of src/redirect.rs and src/main.rs. -/
inductive RedirectionMode where
  | Overwrite
  | Append
deriving DecidableEq

/-- `RedirectFile` of src/redirect.rs and src/main.rs. -/
structure RedirectFile where
  filename : String
  mode : RedirectionMode
deriving DecidableEq

/-- `Redirections` of src/redirect.rs and src/main.rs. -/
structure Redirections where
  stdout_redirect : Option RedirectFile
  stderr_redirect : Option RedirectFile
deriving DecidableEq

/-- The loop body of `parse_redirections`.  The Rust loop repeatedly reads
the operator at index `len - 2` and the filename at index `len - 1` of
`command_args` and truncates the last two elements away; here the list is
traversed in reversed form, so the last element (the filename) is the head
and the operator is the second element, and truncating to `len - 2` is
dropping the two head elements of the reversal. -/
def parse_redirections_loop : List String → Redirections → List String × Redirections
  | filename :: op :: rest, red =>
    if op = ">" ∨ op = "1>" then
      parse_redirections_loop rest
        { red with stdout_redirect := some ⟨filename, RedirectionMode.Overwrite⟩ }
    else if op = "2>" then
      parse_redirections_loop rest
        { red with stderr_redirect := some ⟨filename, RedirectionMode.Overwrite⟩ }
    else if op = ">>" ∨ op = "1>>" then
      parse_redirections_loop rest
        { red with stdout_redirect := some ⟨filename, RedirectionMode.Append⟩ }
    else if op = "2>>" then
      parse_redirections_loop rest
        { red with stderr_redirect := some ⟨filename, RedirectionMode.Append⟩ }
    else (filename :: op :: rest, red)
  | l, red => (l, red)

/-- `parse_redirections` of src/redirect.rs lines 56-103 (and the identical
copy in src/main.rs lines 403-450): scans operator-filename pairs off the
tail of the token list, returning residual tokens and the accumulated
`Redirections`. -/
def parse_redirections (args_slice : List String) : List String × Redirections :=
  let (restRev, red) :=
    parse_redirections_loop args_slice.reverse ⟨none, none⟩
  (restRev.reverse, red)

/-- The Unicode White_Space code points: the set recognised by the
`is_whitespace` method on Rust chars, used by the tokenizer in src/main.rs
to delimit arguments. -/
def rustWhitespaceCodes : List Nat :=
  [0x09, 0x0A, 0x0B, 0x0C, 0x0D, 0x20, 0x85, 0xA0, 0x1680,
   0x2000, 0x2001, 0x2002, 0x2003, 0x2004, 0x2005, 0x2006, 0x2007,
   0x2008, 0x2009, 0x200A, 0x2028, 0x2029, 0x202F, 0x205F, 0x3000]

/-- The `is_whitespace` test on a Rust char. -/
def rustIsWhitespace (c : Char) : Bool :=
  rustWhitespaceCodes.contains c.toNat

end Shell

namespace MainRs

open Shell

/-- The character-consuming loop of `parse_tokens` in src/main.rs lines
22-104, together with its epilogue.  State: remaining input characters,
flushed arguments `args`, current argument `cur` (a Rust string, embedded
as `List Char`; pushing a char is `cur ++ [c]`), and the two quote flags.
The match arms appear in source order: single quote, double quote,
backslash (which peeks at the next character), the whitespace guard, and
the catch-all.  The inner whitespace-skipping loop over peeked characters
is `List.dropWhile rustIsWhitespace`. -/
def tokStep : List Char → List String → List Char → Bool → Bool →
    Except String (List String)
  | [], args, cur, inS, inD =>
    let args := if cur = [] then args else args ++ [String.mk cur]
    if inD then Except.error "Unterminated double quote in arguments"
    else if inS then Except.error "Unterminated single quote in arguments"
    else Except.ok args
  | c :: rest, args, cur, inS, inD =>
    if c = SINGLE_QUOTE then
      if inD then tokStep rest args (cur ++ [c]) inS inD
      else tokStep rest args cur (!inS) inD
    else if c = DOUBLE_QUOTE then
      if inS then tokStep rest args (cur ++ [c]) inS inD
      else tokStep rest args cur inS (!inD)
    else if c = BACKSLASH then
      match rest with
      | [] => tokStep [] args (cur ++ [c]) inS inD
      | next :: rest2 =>
        if inS then tokStep (next :: rest2) args (cur ++ [c]) inS inD
        else if inD then
          if next = DOLLAR ∨ next = BACKQUOTE ∨ next = DOUBLE_QUOTE ∨
              next = BACKSLASH then
            tokStep rest2 args (cur ++ [next]) inS inD
          else tokStep (next :: rest2) args (cur ++ [c]) inS inD
        else tokStep rest2 args (cur ++ [next]) inS inD
    else if rustIsWhitespace c ∧ !inS ∧ !inD then
      let args := if cur = [] then args else args ++ [String.mk cur]
      tokStep (rest.dropWhile rustIsWhitespace) args [] inS inD
    else tokStep rest args (cur ++ [c]) inS inD
termination_by l _ _ _ _ => l.length
decreasing_by
  all_goals simp_wf
  all_goals try omega
  · exact Nat.lt_succ_of_le (List.dropWhile_sublist _).length_le

/-- `parse_tokens` of src/main.rs lines 22-104. -/
def parse_tokens (input_args : String) : Except String (List String) :=
  tokStep input_args.data [] [] false false

/-- The flag set of a Rust `OpenOptions` value as configured at the open
sites of src/main.rs (the read flag is left out: it is only ever set to
its default, false). -/
structure OpenSpec where
  writeFlag : Bool
  createFlag : Bool
  truncateFlag : Bool
  appendFlag : Bool
deriving DecidableEq

/-- The options create, write, truncate-on-Overwrite, append-on-Append
used for every mode-honoring open in src/main.rs. -/
def openFor (m : RedirectionMode) : OpenSpec :=
  ⟨true, true, m = RedirectionMode.Overwrite, m = RedirectionMode.Append⟩

/-- The options of the Rust `File::create` call: write, create and
truncate, never append.  Used by `handle_command_result` for the stderr
target of a failure message (src/main.rs line 560). -/
def fileCreateOpts : OpenSpec :=
  ⟨true, true, true, false⟩

/-- One observable I/O action of the shell process.  `fileOp path opts s`
opens `path` with the flags `opts` and writes the string `s` to it
(possibly empty: a bare create/truncate); `termOut` and `termErr` write to
the stdout and stderr of the terminal. -/
inductive Effect where
  | fileOp (path : String) (opts : OpenSpec) (content : String)
  | termOut (s : String)
  | termErr (s : String)
deriving DecidableEq

/-- `handle_command_result` of src/main.rs lines 483-598, embedded as the
list of I/O effects it performs, in program order, on the path where every
file open succeeds (the fallback error-print arms of the source fire only
when an open or write returns an OS error).  An `Ok(Some(s))` result
writes `s` to the stdout target or terminal and then bare-opens the stderr
target if set; `Ok(None)` only bare-opens the stderr target if set; an
`Err(msg)` with nonempty `msg` writes `msg` plus a newline to the stderr
target via `File::create` (or to terminal stderr), then bare-opens the
stdout target if set; `Err` of the empty string does nothing. -/
def handle_command_result (result : Except String (Option String))
    (redirections : Redirections) : List Effect :=
  match result with
  | Except.ok (some output_str) =>
    (match redirections.stdout_redirect with
     | some stdout => [Effect.fileOp stdout.filename (openFor stdout.mode) output_str]
     | none => [Effect.termOut output_str]) ++
    (match redirections.stderr_redirect with
     | some err_f => [Effect.fileOp err_f.filename (openFor err_f.mode) ""]
     | none => [])
  | Except.ok none =>
    (match redirections.stderr_redirect with
     | some err_f => [Effect.fileOp err_f.filename (openFor err_f.mode) ""]
     | none => [])
  | Except.error err_msg =>
    if err_msg ≠ "" then
      (match redirections.stderr_redirect with
       | some stderr => [Effect.fileOp stderr.filename fileCreateOpts (err_msg ++ "\n")]
       | none => [Effect.termErr (err_msg ++ "\n")]) ++
      (match redirections.stdout_redirect with
       | some out_f => [Effect.fileOp out_f.filename (openFor out_f.mode) ""]
       | none => [])
    else []

/-- `handle_echo` of src/main.rs lines 186-188: success carrying the
arguments joined by a space, plus a newline. -/
def handle_echo (args : List String) : Except String (Option String) :=
  Except.ok (some (String.intercalate " " args ++ "\n"))

/-- Abstraction of the spawned child process as seen by the parent: its
final exit status, and the bytes the parent reads from the stdout pipe
when stdout is piped rather than redirected. -/
structure ChildRun where
  exitSuccess : Bool
  pipedStdout : String

/-- `execute_external_command` of src/main.rs lines 265-380, embedded as
its observable effects and return value on the path where the redirect
files open and the spawn succeeds (the abstracted child supplies the exit
status and the piped stdout bytes).  Per the source: each set redirect
target is opened with the mode-honoring options and wired to the child; if
stdout is not redirected it is piped and the captured text, if nonempty,
is flushed to the terminal after the wait; exit success maps to `Ok(None)`
and a non-zero exit to `Err` of the empty string. -/
def execute_external_command (redirections : Redirections) (child : ChildRun) :
    List Effect × Except String (Option String) :=
  let stdoutOpen : List Effect :=
    match redirections.stdout_redirect with
    | some stdout => [Effect.fileOp stdout.filename (openFor stdout.mode) ""]
    | none => []
  let stderrOpen : List Effect :=
    match redirections.stderr_redirect with
    | some stderr => [Effect.fileOp stderr.filename (openFor stderr.mode) ""]
    | none => []
  let captured_stdout : String :=
    match redirections.stdout_redirect with
    | some _ => ""
    | none => child.pipedStdout
  let flushEffects : List Effect :=
    if captured_stdout ≠ "" then [Effect.termOut captured_stdout] else []
  (stdoutOpen ++ stderrOpen ++ flushEffects,
   if child.exitSuccess then Except.ok none else Except.error "")

/-- The metadata of a filesystem object, as consumed by the lookup code:
the is-file test and the permission bits. -/
structure FileMeta where
  isFile : Bool
  permMode : Nat

/-- One entry yielded by a directory read: its file name, its path (the
directory joined with the name) and the result of fetching its metadata
(`none` when that call errors; the source ignores such entries). -/
structure DirEntry where
  fileName : String
  path : String
  metadataRes : Option FileMeta

/-- The outcome of reading a directory, distinguishing (as the source
does) a not-found error from any other error.  An entry of `none` stands
for an erroneous item of the iterator, which the source skips. -/
inductive ReadDirResult where
  | ok (entries : List (Option DirEntry))
  | notFound
  | otherErr

/-- The ambient filesystem, passed explicitly: the metadata call (`none`
when it errors, which the source treats as absence) and the directory
read. -/
structure Fs where
  metadata : String → Option FileMeta
  readDir : String → ReadDirResult

/-- The entry loop of `find_exec_in_dir` (src/main.rs lines 117-140):
skip erroneous entries, and for the first entry whose name matches, with
readable metadata of a regular file having an execute bit (the permission
mode masked with octal 111 is nonzero), return its path; otherwise keep
scanning. -/
def find_exec_in_dir_loop (name : String) :
    List (Option DirEntry) → Option String
  | [] => none
  | none :: rest => find_exec_in_dir_loop name rest
  | some entry :: rest =>
    if entry.fileName = name then
      match entry.metadataRes with
      | some metadata =>
        if metadata.isFile then
          if metadata.permMode &&& 0o111 ≠ 0 then some entry.path
          else find_exec_in_dir_loop name rest
        else find_exec_in_dir_loop name rest
      | none => find_exec_in_dir_loop name rest
    else find_exec_in_dir_loop name rest

/-- `find_exec_in_dir` of src/main.rs lines 110-142: a not-found error
from the directory read is success-with-none, any other read error
propagates, and otherwise the entries are scanned. -/
def find_exec_in_dir (fs : Fs) (dir_path name : String) :
    Except Unit (Option String) :=
  match fs.readDir dir_path with
  | ReadDirResult.notFound => Except.ok none
  | ReadDirResult.otherErr => Except.error ()
  | ReadDirResult.ok entries => Except.ok (find_exec_in_dir_loop name entries)

/-- Splitting a Rust string at colons, keeping empty pieces (splitting the
empty string yields one empty piece). -/
def splitOnColon : List Char → List Char → List String
  | [], cur => [String.mk cur]
  | c :: rest, cur =>
    if c = ':' then String.mk cur :: splitOnColon rest []
    else splitOnColon rest (cur ++ [c])

/-- The directory loop of `find_exec_in_path` (src/main.rs lines 166-174):
the first successful hit wins; a miss and an error both continue with the
next directory. -/
def searchPath (fs : Fs) (name : String) : List String → Option String
  | [] => none
  | dir :: rest =>
    match find_exec_in_dir fs dir name with
    | Except.ok (some full_path) => some full_path
    | Except.ok none => searchPath fs name rest
    | Except.error _ => searchPath fs name rest

/-- `find_exec_in_path` of src/main.rs lines 145-177.  `pathVar` is the
value of the PATH environment variable (`none` when unset).  The Rust
membership test of the slash in the name is membership in its character
list.  A name containing a slash is checked directly against the metadata
call; otherwise each non-empty piece of the colon-separated PATH is
searched in order. -/
def find_exec_in_path (fs : Fs) (pathVar : Option String) (name : String) :
    Option String :=
  if name.data.contains '/' then
    match fs.metadata name with
    | some metadata =>
      if metadata.isFile then
        if metadata.permMode &&& 0o111 ≠ 0 then some name
        else none
      else none
    | none => none
  else
    match pathVar with
    | some path_var =>
      searchPath fs name
        ((splitOnColon path_var.data []).filter (fun d => !d.isEmpty))
    | none => none

end MainRs

namespace ParserRs

open Shell

/-- The scanning loop of `parse_tokens` in src/parser.rs lines 16-102,
with its epilogue.  Differences from the tokenizer of src/main.rs, per the
source: the backslash arm comes first and, outside single quotes, always
consumes and appends the peeked character (no special escape set inside
double quotes); the whitespace arm matches only the space and tab
characters and its skipping loop only skips those two. -/
def tokStep : List Char → List String → List Char → Bool → Bool →
    Except String (List String)
  | [], args, cur, inS, inD =>
    let args := if cur = [] then args else args ++ [String.mk cur]
    if inD then Except.error "Unterminated double quote in arguments"
    else if inS then Except.error "Unterminated single quote in arguments"
    else Except.ok args
  | c :: rest, args, cur, inS, inD =>
    if c = BACKSLASH then
      match rest with
      | [] => tokStep [] args (cur ++ [c]) inS inD
      | next :: rest2 =>
        if inS then tokStep (next :: rest2) args (cur ++ [c]) inS inD
        else tokStep rest2 args (cur ++ [next]) inS inD
    else if c = SINGLE_QUOTE then
      if inD then tokStep rest args (cur ++ [c]) inS inD
      else tokStep rest args cur (!inS) inD
    else if c = DOUBLE_QUOTE then
      if inS then tokStep rest args (cur ++ [c]) inS inD
      else tokStep rest args cur inS (!inD)
    else if c = ' ' ∨ c = '\t' then
      if inS ∨ inD then tokStep rest args (cur ++ [c]) inS inD
      else
        let args := if cur = [] then args else args ++ [String.mk cur]
        tokStep (rest.dropWhile (fun ch => ch = ' ' || ch = '\t')) args [] inS inD
    else tokStep rest args (cur ++ [c]) inS inD
termination_by l _ _ _ _ => l.length
decreasing_by
  all_goals simp_wf
  all_goals try omega
  · exact Nat.lt_succ_of_le (List.dropWhile_sublist _).length_le

/-- `parse_tokens` of src/parser.rs lines 16-102. -/
def parse_tokens (input_args : String) : Except String (List String) :=
  tokStep input_args.data [] [] false false

end ParserRs

namespace MainRs

open Shell

/-- Modelled from the spec: the re-quoting step of the round-trip property
(section 8 of the spec), which is described only in prose there — it wraps
an argument in single quotes when it contains whitespace and leaves it
unchanged otherwise. -/
def requote (t : String) : String :=
  if t.data.any rustIsWhitespace then
    String.mk (SINGLE_QUOTE :: (t.data ++ [SINGLE_QUOTE]))
  else t

/-- Modelled from the spec: joining the re-quoted arguments with single
spaces, at the character-list level. -/
def rejoinChars : List String → List Char
  | [] => []
  | [t] => (requote t).data
  | t :: rest => (requote t).data ++ (' ' :: rejoinChars rest)

/-- Modelled from the spec: the re-quoted, re-joined command line. -/
def rejoin (toks : List String) : String :=
  String.mk (rejoinChars toks)

/-- Tokens that survive the re-quote round trip: no single quote anywhere,
and a token that will not be wrapped (no whitespace) also has no double
quote and no backslash. -/
def GoodTok (t : String) : Prop :=
  SINGLE_QUOTE ∉ t.data ∧
  (t.data.any rustIsWhitespace = false →
    DOUBLE_QUOTE ∉ t.data ∧ BACKSLASH ∉ t.data)

instance (t : String) : Decidable (GoodTok t) := by
  unfold GoodTok
  infer_instance

end MainRs

open Shell in
/-- A character on which the two tokenizers cannot diverge: not a
backslash, and whitespace only if it is the plain space or tab. -/
def TameChar (c : Char) : Prop :=
  c ≠ BACKSLASH ∧ (rustIsWhitespace c = true → c = ' ' ∨ c = '\t')

instance (c : Char) : Decidable (TameChar c) := by
  unfold TameChar
  infer_instance

/-- A filesystem in which every path is an executable regular file and
every directory read reports not-found; a fixture for concrete
instantiations. -/
def fsAllExec : MainRs.Fs :=
  ⟨fun _ => some ⟨true, 0o755⟩, fun _ => MainRs.ReadDirResult.notFound⟩

/-- Like `fsAllExec` but with erroring directory reads; a second fixture
with the same metadata component. -/
def fsAllExecErrDirs : MainRs.Fs :=
  ⟨fun _ => some ⟨true, 0o755⟩, fun _ => MainRs.ReadDirResult.otherErr⟩

namespace MainRs

open Shell

/-- Rebuilding a string from its character data gives the string back. -/
theorem mk_data (t : String) : String.mk t.data = t := rfl

/-- A string with empty character data is the empty string. -/
theorem eq_empty_of_data_eq_nil {t : String} (h : t.data = []) : t = "" :=
  String.ext (by simp [h])

/-- A string built from a nonempty character list is not empty. -/
theorem mk_ne_empty {cur : List Char} (h : cur ≠ []) : String.mk cur ≠ "" := by
  intro he
  exact h (congrArg String.data he)

/-- The epilogue of the tokenizer outside both quote states: flush a
nonempty current argument and succeed. -/
theorem tokStep_nil_flush (args : List String) (cur : List Char) :
    tokStep [] args cur false false =
      Except.ok (if cur = [] then args else args ++ [String.mk cur]) := by
  rw [tokStep.eq_def]
  simp +decide only [if_true, if_false]

/-- Outside both quote states, a character that is no quote, no backslash
and no whitespace is appended to the current argument. -/
theorem tokStep_plain_char (c : Char) (hsq : c ≠ SINGLE_QUOTE) (hdq : c ≠ DOUBLE_QUOTE)
    (hbs : c ≠ BACKSLASH) (hws : rustIsWhitespace c = false)
    (l : List Char) (args : List String) (cur : List Char) :
    tokStep (c :: l) args cur false false = tokStep l args (cur ++ [c]) false false := by
  rw [tokStep.eq_def]
  simp only [if_neg hsq, if_neg hdq, if_neg hbs, hws, Bool.false_eq_true, false_and,
    if_false]

/-- Inside single quotes every character except the closing quote is
appended literally (backslashes included, without consuming a successor). -/
theorem tokStep_squote_char (c : Char) (hsq : c ≠ SINGLE_QUOTE)
    (l : List Char) (args : List String) (cur : List Char) :
    tokStep (c :: l) args cur true false = tokStep l args (cur ++ [c]) true false := by
  rw [tokStep.eq_def]
  by_cases hdq : c = DOUBLE_QUOTE
  · subst hdq
    simp +decide only [if_true, if_false]
  · by_cases hbs : c = BACKSLASH
    · subst hbs
      cases l with
      | nil => simp +decide only [if_true, if_false]
      | cons x xs => simp +decide only [if_true, if_false]
    · simp only [if_neg hsq, if_neg hdq, if_neg hbs, Bool.not_true, Bool.false_eq_true,
        false_and, and_false, if_false]

/-- A single quote outside any quote state enters single-quote mode. -/
theorem tokStep_squote_open (l : List Char) (args : List String) (cur : List Char) :
    tokStep (SINGLE_QUOTE :: l) args cur false false = tokStep l args cur true false := by
  rw [tokStep.eq_def]
  simp +decide only [if_true, if_false, Bool.not_false]

/-- A single quote in single-quote mode leaves it. -/
theorem tokStep_squote_close (l : List Char) (args : List String) (cur : List Char) :
    tokStep (SINGLE_QUOTE :: l) args cur true false = tokStep l args cur false false := by
  rw [tokStep.eq_def]
  simp +decide only [if_true, if_false, Bool.not_true]

/-- A run of plain characters is appended wholesale to the current
argument. -/
theorem tokStep_plain_chars (cs : List Char)
    (h : ∀ c ∈ cs, c ≠ SINGLE_QUOTE ∧ c ≠ DOUBLE_QUOTE ∧ c ≠ BACKSLASH ∧
      rustIsWhitespace c = false) :
    ∀ (l : List Char) (args : List String) (cur : List Char),
    tokStep (cs ++ l) args cur false false = tokStep l args (cur ++ cs) false false := by
  induction cs with
  | nil => intro l args cur; simp
  | cons c cs ih =>
    intro l args cur
    have hc := h c (List.mem_cons_self c cs)
    have hcs : ∀ x ∈ cs, x ≠ SINGLE_QUOTE ∧ x ≠ DOUBLE_QUOTE ∧ x ≠ BACKSLASH ∧
        rustIsWhitespace x = false := fun x hx => h x (List.mem_cons_of_mem c hx)
    rw [List.cons_append, tokStep_plain_char c hc.1 hc.2.1 hc.2.2.1 hc.2.2.2, ih hcs]
    simp [List.append_assoc]

/-- A run of quote-free characters inside single quotes is appended
wholesale to the current argument. -/
theorem tokStep_squote_chars (cs : List Char) (h : ∀ c ∈ cs, c ≠ SINGLE_QUOTE) :
    ∀ (l : List Char) (args : List String) (cur : List Char),
    tokStep (cs ++ l) args cur true false = tokStep l args (cur ++ cs) true false := by
  induction cs with
  | nil => intro l args cur; simp
  | cons c cs ih =>
    intro l args cur
    have hc := h c (List.mem_cons_self c cs)
    have hcs : ∀ x ∈ cs, x ≠ SINGLE_QUOTE := fun x hx => h x (List.mem_cons_of_mem c hx)
    rw [List.cons_append, tokStep_squote_char c hc, ih hcs]
    simp [List.append_assoc]

/-- A single-quoted group contributes exactly its body to the current
argument. -/
theorem tokStep_wrapped (t : List Char) (h : SINGLE_QUOTE ∉ t)
    (l : List Char) (args : List String) (cur : List Char) :
    tokStep (SINGLE_QUOTE :: (t ++ SINGLE_QUOTE :: l)) args cur false false =
      tokStep l args (cur ++ t) false false := by
  rw [tokStep_squote_open,
    tokStep_squote_chars t (fun c hc => fun he => h (he ▸ hc)) (SINGLE_QUOTE :: l),
    tokStep_squote_close]

/-- A space outside both quote states flushes the nonempty current
argument; when the rest does not start with whitespace, nothing further is
skipped. -/
theorem tokStep_space_flush (l : List Char) (args : List String) (cur : List Char)
    (hcur : cur ≠ []) (hl : l.dropWhile rustIsWhitespace = l) :
    tokStep (' ' :: l) args cur false false =
      tokStep l (args ++ [String.mk cur]) [] false false := by
  rw [tokStep.eq_def]
  simp +decide only [if_neg hcur, hl, if_true, if_false]

/-- Every token of a list and then the flush of a further nonempty current
argument are nonempty, given the tokens already collected are. -/
theorem inv_append_mk (args : List String) (cur : List Char)
    (hinv : ∀ a ∈ args, a ≠ "") (hcur : cur ≠ []) :
    ∀ a ∈ args ++ [String.mk cur], a ≠ "" := by
  intro a ha
  rcases List.mem_append.mp ha with h | h
  · exact hinv a h
  · rw [List.mem_singleton.mp h]
    exact mk_ne_empty hcur

/-- The conditional flush of the tokenizer preserves nonemptiness of the
collected tokens. -/
theorem flush_inv (args : List String) (cur : List Char)
    (hinv : ∀ a ∈ args, a ≠ "") :
    ∀ a ∈ (if cur = [] then args else args ++ [String.mk cur]), a ≠ "" := by
  by_cases hc : cur = []
  · rw [if_pos hc]
    exact hinv
  · rw [if_neg hc]
    exact inv_append_mk args cur hinv hc

/-- Invariant of the tokenizer: all tokens it returns are nonempty, as
both flush sites guard on a nonempty current argument. -/
theorem tokStep_ok_nonempty : ∀ (n : Nat) (l : List Char), l.length ≤ n →
    ∀ (args : List String) (cur : List Char) (inS inD : Bool) (toks : List String),
    tokStep l args cur inS inD = Except.ok toks →
    (∀ a ∈ args, a ≠ "") → ∀ t ∈ toks, t ≠ "" := by
  intro n
  induction n with
  | zero =>
    intro l hl args cur inS inD toks heq hinv
    have he : l = [] := List.eq_nil_of_length_eq_zero (Nat.le_zero.mp hl)
    subst he
    rw [tokStep.eq_def] at heq
    cases inD with
    | true => simp at heq
    | false =>
      cases inS with
      | true => simp at heq
      | false =>
        simp only [Bool.false_eq_true, if_false, Except.ok.injEq] at heq
        subst heq
        exact flush_inv args cur hinv
  | succ n ih =>
    intro l hl args cur inS inD toks heq hinv
    match l with
    | [] =>
      rw [tokStep.eq_def] at heq
      cases inD with
      | true => simp at heq
      | false =>
        cases inS with
        | true => simp at heq
        | false =>
          simp only [Bool.false_eq_true, if_false, Except.ok.injEq] at heq
          subst heq
          exact flush_inv args cur hinv
    | [c] =>
      simp only [tokStep, List.dropWhile_nil] at heq
      repeat' split at heq
      all_goals first
        | exact Except.noConfusion heq
        | exact absurd trivial (by assumption)
        | (rw [Except.ok.injEq] at heq
           subst heq
           first
             | exact hinv
             | exact inv_append_mk _ _ hinv (by assumption))
    | c :: next :: rest2 =>
      have hb1 : (next :: rest2).length ≤ n := by
        simp only [List.length_cons] at hl ⊢
        omega
      have hb2 : rest2.length ≤ n := by
        simp only [List.length_cons] at hl ⊢
        omega
      simp only [tokStep] at heq
      repeat' split at heq
      all_goals first
        | exact ih _ hb1 _ _ _ _ _ heq hinv
        | exact ih _ hb1 _ _ _ _ _ heq (flush_inv _ _ hinv)
        | exact ih _ hb2 _ _ _ _ _ heq hinv
        | exact ih _ (le_trans (List.dropWhile_sublist _).length_le hb1)
            _ _ _ _ _ heq hinv
        | exact ih _ (le_trans (List.dropWhile_sublist _).length_le hb1)
            _ _ _ _ _ heq (inv_append_mk _ _ hinv (by assumption))

/-- The head of a re-joined line is never whitespace: a wrapped token
starts with the quote, an unwrapped one with a non-whitespace character. -/
theorem rejoinChars_head (t : String) (rest : List String) (ht : t ≠ "") :
    ∃ c cs, rejoinChars (t :: rest) = c :: cs ∧ rustIsWhitespace c = false := by
  have hdata : t.data ≠ [] := fun h => ht (eq_empty_of_data_eq_nil h)
  have hform : ∃ c cs, (requote t).data = c :: cs ∧ rustIsWhitespace c = false := by
    by_cases hw : t.data.any rustIsWhitespace = true
    · refine ⟨SINGLE_QUOTE, t.data ++ [SINGLE_QUOTE], ?_, by decide⟩
      rw [requote, if_pos hw]
    · obtain ⟨c, cs, hc⟩ := List.exists_cons_of_ne_nil hdata
      have hmem : c ∈ t.data := by rw [hc]; exact List.mem_cons_self c cs
      have hcws : rustIsWhitespace c = false := by
        have hany : t.data.any rustIsWhitespace = false := by
          cases hb : t.data.any rustIsWhitespace with
          | true => exact absurd hb hw
          | false => rfl
        exact Bool.not_eq_true _ ▸ (List.any_eq_false.mp hany c hmem)
      refine ⟨c, cs, ?_, hcws⟩
      rw [requote, if_neg hw, hc]
  obtain ⟨c, cs, hform, hcws⟩ := hform
  cases rest with
  | nil => exact ⟨c, cs, by rw [show rejoinChars [t] = (requote t).data from rfl, hform], hcws⟩
  | cons t2 r2 =>
    refine ⟨c, cs ++ (' ' :: rejoinChars (t2 :: r2)), ?_, hcws⟩
    rw [show rejoinChars (t :: t2 :: r2) =
        (requote t).data ++ (' ' :: rejoinChars (t2 :: r2)) from rfl, hform]
    rfl

/-- Tokenizing a re-quoted, re-joined token list appends exactly those
tokens to the already-collected ones, provided every token is nonempty and
round-trip safe. -/
theorem rejoin_tokens : ∀ (toks : List String),
    (∀ t ∈ toks, t ≠ "" ∧ GoodTok t) →
    ∀ args, tokStep (rejoinChars toks) args [] false false = Except.ok (args ++ toks) := by
  intro toks
  induction toks with
  | nil =>
    intro _ args
    rw [show rejoinChars [] = [] from rfl, tokStep_nil_flush]
    simp
  | cons t rest ih =>
    intro H args
    have ht := H t (List.mem_cons_self t rest)
    have hrest : ∀ x ∈ rest, x ≠ "" ∧ GoodTok x :=
      fun x hx => H x (List.mem_cons_of_mem t hx)
    have hdata : t.data ≠ [] := fun h => ht.1 (eq_empty_of_data_eq_nil h)
    have hplain : t.data.any rustIsWhitespace = false →
        ∀ c ∈ t.data, c ≠ SINGLE_QUOTE ∧ c ≠ DOUBLE_QUOTE ∧ c ≠ BACKSLASH ∧
          rustIsWhitespace c = false := by
      intro hany c hc
      refine ⟨fun he => ht.2.1 (he ▸ hc), fun he => (ht.2.2 hany).1 (he ▸ hc),
        fun he => (ht.2.2 hany).2 (he ▸ hc),
        Bool.not_eq_true _ ▸ (List.any_eq_false.mp hany c hc)⟩
    cases rest with
    | nil =>
      rw [show rejoinChars [t] = (requote t).data from rfl]
      by_cases hw : t.data.any rustIsWhitespace = true
      · rw [show (requote t).data =
            SINGLE_QUOTE :: (t.data ++ (SINGLE_QUOTE :: [])) from by
          rw [requote, if_pos hw]]
        rw [tokStep_wrapped t.data ht.2.1, tokStep_nil_flush]
        rw [if_neg (by simpa using hdata)]
        simp [mk_data]
      · have hany : t.data.any rustIsWhitespace = false := by
          cases hb : t.data.any rustIsWhitespace with
          | true => exact absurd hb hw
          | false => rfl
        rw [show (requote t).data = t.data from by rw [requote, if_neg hw]]
        rw [show t.data = t.data ++ [] from by simp]
        rw [tokStep_plain_chars t.data (hplain hany), tokStep_nil_flush]
        rw [if_neg (by simpa using hdata)]
        simp [mk_data]
    | cons t2 rest2 =>
      rw [show rejoinChars (t :: t2 :: rest2) =
          (requote t).data ++ (' ' :: rejoinChars (t2 :: rest2)) from rfl]
      obtain ⟨hd, tl, hhd, hhdws⟩ :=
        rejoinChars_head t2 rest2 (hrest t2 (List.mem_cons_self t2 rest2)).1
      have hdropid : (rejoinChars (t2 :: rest2)).dropWhile rustIsWhitespace =
          rejoinChars (t2 :: rest2) := by
        rw [hhd]
        simp [List.dropWhile_cons, hhdws]
      have hfin : tokStep (' ' :: rejoinChars (t2 :: rest2)) args t.data false false =
          Except.ok (args ++ (t :: t2 :: rest2)) := by
        rw [tokStep_space_flush _ args t.data hdata hdropid, mk_data, ih hrest]
        simp
      by_cases hw : t.data.any rustIsWhitespace = true
      · rw [show (requote t).data =
            SINGLE_QUOTE :: (t.data ++ [SINGLE_QUOTE]) from by rw [requote, if_pos hw]]
        rw [show (SINGLE_QUOTE :: (t.data ++ [SINGLE_QUOTE])) ++
              (' ' :: rejoinChars (t2 :: rest2)) =
            SINGLE_QUOTE :: (t.data ++
              (SINGLE_QUOTE :: (' ' :: rejoinChars (t2 :: rest2)))) from by
          simp]
        rw [tokStep_wrapped t.data ht.2.1]
        simpa using hfin
      · have hany : t.data.any rustIsWhitespace = false := by
          cases hb : t.data.any rustIsWhitespace with
          | true => exact absurd hb hw
          | false => rfl
        rw [show (requote t).data = t.data from by rw [requote, if_neg hw]]
        rw [tokStep_plain_chars t.data (hplain hany)]
        simpa using hfin

end MainRs

open Shell in
/-- On a list of tame characters the two whitespace-skipping predicates
drop the same prefix. -/
theorem dropWhile_ws_eq (l : List Char) (H : ∀ c ∈ l, TameChar c) :
    l.dropWhile rustIsWhitespace = l.dropWhile (fun ch => ch = ' ' || ch = '\t') := by
  induction l with
  | nil => rfl
  | cons c rest ih =>
    have hc := (H c (List.mem_cons_self c rest)).2
    have hrest : ∀ x ∈ rest, TameChar x := fun x hx => H x (List.mem_cons_of_mem c hx)
    cases hb : rustIsWhitespace c with
    | true =>
      have hsp : (c = ' ' || c = '\t') = true := by
        rcases hc hb with h | h <;> simp [h]
      simp only [List.dropWhile_cons, hb, hsp, if_true]
      exact ih hrest
    | false =>
      have hc1 : c ≠ ' ' := by
        intro h
        subst h
        exact absurd hb (by decide)
      have hc2 : c ≠ '\t' := by
        intro h
        subst h
        exact absurd hb (by decide)
      have hsp : (c = ' ' || c = '\t') = false := by
        simp [hc1, hc2]
      simp only [List.dropWhile_cons, hb, hsp, Bool.false_eq_true, if_false]

open Shell in
/-- On inputs of tame characters the two tokenizer loops agree, from any
common state. -/
theorem tokStep_agree : ∀ (n : Nat) (l : List Char), l.length ≤ n →
    ∀ (args : List String) (cur : List Char) (inS inD : Bool),
    (∀ c ∈ l, TameChar c) →
    MainRs.tokStep l args cur inS inD = ParserRs.tokStep l args cur inS inD := by
  intro n
  induction n with
  | zero =>
    intro l hl args cur inS inD _
    have he : l = [] := List.eq_nil_of_length_eq_zero (Nat.le_zero.mp hl)
    subst he
    rw [MainRs.tokStep.eq_def, ParserRs.tokStep.eq_def]
  | succ n ih =>
    intro l hl args cur inS inD H
    match l with
    | [] => rw [MainRs.tokStep.eq_def, ParserRs.tokStep.eq_def]
    | c :: rest =>
      have hcbs : c ≠ BACKSLASH := (H c (List.mem_cons_self c rest)).1
      have hcws : rustIsWhitespace c = true → c = ' ' ∨ c = '\t' :=
        (H c (List.mem_cons_self c rest)).2
      have hrest : ∀ x ∈ rest, TameChar x := fun x hx => H x (List.mem_cons_of_mem c hx)
      have hlen : rest.length ≤ n := by
        simp only [List.length_cons] at hl
        omega
      by_cases h1 : c = SINGLE_QUOTE
      · subst h1
        have e1 := ih rest hlen args (cur ++ [SINGLE_QUOTE]) inS inD hrest
        have e2 := ih rest hlen args cur (!inS) inD hrest
        rw [MainRs.tokStep.eq_def, ParserRs.tokStep.eq_def]
        simp +decide only [e1, e2, if_true, if_false]
      · by_cases h2 : c = DOUBLE_QUOTE
        · subst h2
          have e1 := ih rest hlen args (cur ++ [DOUBLE_QUOTE]) inS inD hrest
          have e2 := ih rest hlen args cur inS (!inD) hrest
          rw [MainRs.tokStep.eq_def, ParserRs.tokStep.eq_def]
          simp +decide only [e1, e2, if_true, if_false]
        · by_cases h3 : c = ' ' ∨ c = '\t'
          · have hdrop := dropWhile_ws_eq rest hrest
            have hdlen : (rest.dropWhile rustIsWhitespace).length ≤ n :=
              le_trans (List.dropWhile_sublist _).length_le hlen
            have hdH : ∀ x ∈ rest.dropWhile rustIsWhitespace, TameChar x :=
              fun x hx => hrest x ((List.dropWhile_sublist _).subset hx)
            have e1 := ih _ hdlen (if cur = [] then args else args ++ [String.mk cur])
              [] inS inD hdH
            rw [hdrop] at e1
            have e2 := ih rest hlen args (cur ++ [c]) inS inD hrest
            rcases h3 with h | h <;> subst h <;> cases inS <;> cases inD <;>
              (rw [MainRs.tokStep.eq_def, ParserRs.tokStep.eq_def]
               simp +decide only [hdrop, e1, e2, if_true, if_false])
          · have hws : rustIsWhitespace c = false := by
              cases hb : rustIsWhitespace c with
              | true => exact absurd (hcws hb) h3
              | false => rfl
            have e2 := ih rest hlen args (cur ++ [c]) inS inD hrest
            rw [MainRs.tokStep.eq_def, ParserRs.tokStep.eq_def]
            simp only [if_neg h1, if_neg h2, if_neg hcbs, if_neg h3, hws,
              Bool.false_eq_true, false_and, if_false, e2]

/-- Claim C1, counterexample: on the token sequence
cmd > a > b, `parse_redirections` does not return a stdout target with
path b — the tail pair is processed first and then overwritten by the
pair further left, so the claimed last-one-wins result is false on the
code. -/
theorem c1_counterexample :
    (Shell.parse_redirections ["cmd", ">", "a", ">", "b"]).2.stdout_redirect ≠
      some ⟨"b", Shell.RedirectionMode.Overwrite⟩ := by
  decide

/-- Claim C1, amended: `parse_redirections` on cmd > a > b returns
residual tokens cmd and a stdout target with path a and mode Overwrite:
when the same stream is redirected by two trailing operator-filename
pairs, the left-most pair wins, because the tail-inward scan assigns it
last — first-one-wins per stream. -/
theorem c1_amended :
    Shell.parse_redirections ["cmd", ">", "a", ">", "b"] =
      (["cmd"], ⟨some ⟨"a", Shell.RedirectionMode.Overwrite⟩, none⟩) := rfl

/-- Claim C2: in the tokenizer of src/main.rs, a backslash inside double
quotes consumes and appends the next character exactly when that character
is a dollar, backquote, double quote or backslash; for any other next
character the backslash itself is appended and the next character is left
in the input to be processed on the next iteration. -/
theorem c2_dquote_backslash (next : Char) (rest : List Char)
    (args : List String) (cur : List Char) :
    (next = Shell.DOLLAR ∨ next = Shell.BACKQUOTE ∨ next = Shell.DOUBLE_QUOTE ∨
        next = Shell.BACKSLASH →
      MainRs.tokStep (Shell.BACKSLASH :: next :: rest) args cur false true =
        MainRs.tokStep rest args (cur ++ [next]) false true) ∧
    (¬(next = Shell.DOLLAR ∨ next = Shell.BACKQUOTE ∨ next = Shell.DOUBLE_QUOTE ∨
        next = Shell.BACKSLASH) →
      MainRs.tokStep (Shell.BACKSLASH :: next :: rest) args cur false true =
        MainRs.tokStep (next :: rest) args (cur ++ [Shell.BACKSLASH]) false true) := by
  have h1 : ¬ (Shell.BACKSLASH = Shell.SINGLE_QUOTE) := by decide
  have h2 : ¬ (Shell.BACKSLASH = Shell.DOUBLE_QUOTE) := by decide
  constructor <;> intro h
  · simp only [MainRs.tokStep, if_neg h1, if_neg h2, if_pos rfl,
      Bool.false_eq_true, if_false, if_true, if_pos h]
  · simp only [MainRs.tokStep, if_neg h1, if_neg h2, if_pos rfl,
      Bool.false_eq_true, if_false, if_true, if_neg h]

/-- Witness for C2 at concrete inputs: an escaped double quote is
consumed and appended; before a plain letter the backslash is kept and the
letter is not consumed. -/
theorem c2_dquote_backslash_witness :
    (Shell.DOUBLE_QUOTE = Shell.DOLLAR ∨ Shell.DOUBLE_QUOTE = Shell.BACKQUOTE ∨
       Shell.DOUBLE_QUOTE = Shell.DOUBLE_QUOTE ∨ Shell.DOUBLE_QUOTE = Shell.BACKSLASH) ∧
    MainRs.tokStep [Shell.BACKSLASH, Shell.DOUBLE_QUOTE] [] [] false true =
      MainRs.tokStep [] [] [Shell.DOUBLE_QUOTE] false true ∧
    ¬(('a' : Char) = Shell.DOLLAR ∨ ('a' : Char) = Shell.BACKQUOTE ∨
       ('a' : Char) = Shell.DOUBLE_QUOTE ∨ ('a' : Char) = Shell.BACKSLASH) ∧
    MainRs.tokStep [Shell.BACKSLASH, 'a'] [] [] false true =
      MainRs.tokStep ['a'] [] [Shell.BACKSLASH] false true :=
  ⟨by decide,
   (c2_dquote_backslash Shell.DOUBLE_QUOTE [] [] []).1 (by decide),
   by decide,
   (c2_dquote_backslash 'a' [] [] []).2 (by decide)⟩

/-- Claim C3: an external command that spawns and exits with a non-zero
status is reported as the empty error string, and when stderr is not
redirected the result sink performs no effect at all for it — the shell
adds nothing beyond what the child already wrote. -/
theorem c3_silent_failure (red : Shell.Redirections) (child : MainRs.ChildRun)
    (hstderr : red.stderr_redirect = none) (hexit : child.exitSuccess = false) :
    (MainRs.execute_external_command red child).2 = Except.error "" ∧
    MainRs.handle_command_result (MainRs.execute_external_command red child).2 red = [] := by
  constructor <;>
    simp [MainRs.execute_external_command, MainRs.handle_command_result, hexit]

/-- Witness for C3 at a concrete failing child with no redirections. -/
theorem c3_silent_failure_witness :
    (⟨none, none⟩ : Shell.Redirections).stderr_redirect = none ∧
    (⟨false, "diag"⟩ : MainRs.ChildRun).exitSuccess = false ∧
    ((MainRs.execute_external_command ⟨none, none⟩ ⟨false, "diag"⟩).2 = Except.error "" ∧
     MainRs.handle_command_result
       (MainRs.execute_external_command ⟨none, none⟩ ⟨false, "diag"⟩).2 ⟨none, none⟩ = []) :=
  ⟨rfl, rfl, c3_silent_failure ⟨none, none⟩ ⟨false, "diag"⟩ rfl rfl⟩

/-- Claim C4, evaluation at the failing input: delivering a failure
message with a stderr target in Append mode (operator 2>>) writes the
message through the truncating, non-appending `File::create` options, so
the existing file contents are discarded instead of appended to — the code
ignores the Append mode here, contradicting the documented meaning of the
2>> operator which every other write site honors. -/
theorem c4_failure_append_truncates :
    MainRs.handle_command_result (Except.error "cd: /x: No such file or directory")
        ⟨none, some ⟨"err.txt", Shell.RedirectionMode.Append⟩⟩ =
      [MainRs.Effect.fileOp "err.txt" MainRs.fileCreateOpts
        ("cd: /x: No such file or directory" ++ "\n")] ∧
    MainRs.fileCreateOpts.truncateFlag = true ∧
    MainRs.fileCreateOpts.appendFlag = false := by
  refine ⟨?_, rfl, rfl⟩
  rfl

/-- Claim C5: delivering a no-output result opens exactly the stderr
target when one is set (with the create flag, truncating in Overwrite
mode) and performs nothing otherwise; the sink never reads the stdout
target — its output is the same for any value of that field. -/
theorem c5_no_output_stderr_only (f : Shell.RedirectFile)
    (s1 s2 e : Option Shell.RedirectFile) :
    MainRs.handle_command_result (Except.ok none) ⟨s1, some f⟩ =
      [MainRs.Effect.fileOp f.filename (MainRs.openFor f.mode) ""] ∧
    MainRs.handle_command_result (Except.ok none) ⟨s1, e⟩ =
      MainRs.handle_command_result (Except.ok none) ⟨s2, e⟩ :=
  ⟨rfl, rfl⟩

/-- Claim C6: trailing redirections of different streams commute:
cmd arg > out.txt 2> err.txt parses to residual cmd arg with both targets
set in Overwrite mode, and swapping the two operator-filename pairs gives
the identical result. -/
theorem c6_redirection_order :
    Shell.parse_redirections ["cmd", "arg", ">", "out.txt", "2>", "err.txt"] =
      (["cmd", "arg"],
       ⟨some ⟨"out.txt", Shell.RedirectionMode.Overwrite⟩,
        some ⟨"err.txt", Shell.RedirectionMode.Overwrite⟩⟩) ∧
    Shell.parse_redirections ["cmd", "arg", "2>", "err.txt", ">", "out.txt"] =
      Shell.parse_redirections ["cmd", "arg", ">", "out.txt", "2>", "err.txt"] :=
  ⟨rfl, rfl⟩

/-- Claim C7: for a name containing a slash, `find_exec_in_path` never
consults the PATH variable or the directory reader — its result is the
same for any PATH value and any filesystem with the same metadata
component — and it returns the name itself exactly when the direct path is
a regular file with an execute bit, nothing otherwise. -/
theorem c7_direct_path (fs fs2 : MainRs.Fs) (pv pv2 : Option String) (name : String)
    (hslash : name.data.contains '/' = true)
    (hmeta : fs.metadata = fs2.metadata) :
    MainRs.find_exec_in_path fs pv name = MainRs.find_exec_in_path fs2 pv2 name ∧
    MainRs.find_exec_in_path fs pv name =
      (match fs.metadata name with
       | some m =>
         if m.isFile then
           (if m.permMode &&& 0o111 ≠ 0 then some name else none)
         else none
       | none => none) := by
  constructor <;> simp only [MainRs.find_exec_in_path, hslash, hmeta, if_true]

/-- Witness for C7 at a concrete slash-containing name, differing PATH
values and differing directory readers. -/
theorem c7_direct_path_witness :
    ("/bin/sh".data.contains '/' = true) ∧
    fsAllExec.metadata = fsAllExecErrDirs.metadata ∧
    (MainRs.find_exec_in_path fsAllExec (some "/usr/bin:/bin") "/bin/sh" =
       MainRs.find_exec_in_path fsAllExecErrDirs none "/bin/sh" ∧
     MainRs.find_exec_in_path fsAllExec (some "/usr/bin:/bin") "/bin/sh" =
       (match fsAllExec.metadata "/bin/sh" with
        | some m =>
          if m.isFile then
            (if m.permMode &&& 0o111 ≠ 0 then some "/bin/sh" else none)
          else none
        | none => none)) :=
  ⟨rfl, rfl, c7_direct_path fsAllExec fsAllExecErrDirs (some "/usr/bin:/bin") none
    "/bin/sh" rfl rfl⟩

/-- Claim C8: the echo builtin always succeeds with exactly the arguments
joined by single spaces plus one newline, and the sink delivers exactly
that string to the logical stdout: to the terminal when stdout is not
redirected, into the stdout target file when it is. -/
theorem c8_echo (args : List String) (o : Shell.RedirectFile) :
    MainRs.handle_echo args = Except.ok (some (String.intercalate " " args ++ "\n")) ∧
    MainRs.handle_command_result (MainRs.handle_echo args) ⟨none, none⟩ =
      [MainRs.Effect.termOut (String.intercalate " " args ++ "\n")] ∧
    MainRs.handle_command_result (MainRs.handle_echo args) ⟨some o, none⟩ =
      [MainRs.Effect.fileOp o.filename (MainRs.openFor o.mode)
        (String.intercalate " " args ++ "\n")] :=
  ⟨rfl, rfl, rfl⟩

/-- Claim C9, counterexample: the input backslash-quote tokenizes to the
single-quote token, whose re-quoted form re-tokenizes to an unterminated
quote error rather than to the same token sequence — the round trip fails
on tokens containing a quote character. -/
theorem c9_counterexample :
    MainRs.parse_tokens (String.mk [Shell.BACKSLASH, Shell.SINGLE_QUOTE]) =
      Except.ok [String.mk [Shell.SINGLE_QUOTE]] ∧
    MainRs.parse_tokens (MainRs.rejoin [String.mk [Shell.SINGLE_QUOTE]]) =
      Except.error "Unterminated single quote in arguments" := by
  constructor
  · simp +decide [MainRs.parse_tokens, MainRs.tokStep]
  · simp +decide [MainRs.parse_tokens, MainRs.tokStep, MainRs.rejoin,
      MainRs.rejoinChars, MainRs.requote]

/-- Claim C9, amended: for every line that tokenizes successfully and
whose tokens contain no single quote, and no double quote or backslash in
any whitespace-free (hence unwrapped) token, re-quoting and re-joining
the tokens and tokenizing again returns exactly the same token
sequence. -/
theorem c9_amended (line : String) (toks : List String)
    (hparse : MainRs.parse_tokens line = Except.ok toks)
    (hgood : ∀ t ∈ toks, MainRs.GoodTok t) :
    MainRs.parse_tokens (MainRs.rejoin toks) = Except.ok toks := by
  have hne : ∀ t ∈ toks, t ≠ "" :=
    MainRs.tokStep_ok_nonempty line.data.length line.data le_rfl [] [] false false toks
      hparse (by simp)
  have h := MainRs.rejoin_tokens toks (fun t ht => ⟨hne t ht, hgood t ht⟩) []
  rw [MainRs.parse_tokens, MainRs.rejoin]
  simpa using h

/-- Witness for C9 at a concrete line of three plain words. -/
theorem c9_amended_witness :
    MainRs.parse_tokens "echo hello world" = Except.ok ["echo", "hello", "world"] ∧
    (∀ t ∈ (["echo", "hello", "world"] : List String), MainRs.GoodTok t) ∧
    MainRs.parse_tokens (MainRs.rejoin ["echo", "hello", "world"]) =
      Except.ok ["echo", "hello", "world"] := by
  refine ⟨?_, by decide, ?_⟩
  · simp +decide [MainRs.parse_tokens, MainRs.tokStep]
  · exact c9_amended "echo hello world" ["echo", "hello", "world"]
      (by simp +decide [MainRs.parse_tokens, MainRs.tokStep]) (by decide)

/-- Claim C10, counterexample: on a double-quoted backslash before a
plain letter, the tokenizer of src/main.rs keeps the backslash while the
tokenizer of src/parser.rs drops it, so the two return different
successful token sequences. -/
theorem c10_counterexample :
    MainRs.parse_tokens
        (String.mk [Shell.DOUBLE_QUOTE, Shell.BACKSLASH, 'a', Shell.DOUBLE_QUOTE]) =
      Except.ok [String.mk [Shell.BACKSLASH, 'a']] ∧
    ParserRs.parse_tokens
        (String.mk [Shell.DOUBLE_QUOTE, Shell.BACKSLASH, 'a', Shell.DOUBLE_QUOTE]) =
      Except.ok ["a"] ∧
    (Except.ok [String.mk [Shell.BACKSLASH, 'a']] : Except String (List String)) ≠
      Except.ok ["a"] := by
  refine ⟨?_, ?_, ?_⟩
  · simp +decide [MainRs.parse_tokens, MainRs.tokStep]
  · simp +decide [ParserRs.parse_tokens, ParserRs.tokStep]
  · intro h
    exact absurd (Except.ok.inj h) (by decide)

/-- Claim C10, amended: the two tokenizers differ only in backslash
handling inside double quotes and in the recognised whitespace set; on
every input containing no backslash and no whitespace besides the plain
space and tab they compute the same function. -/
theorem c10_amended (input : String) (H : ∀ c ∈ input.data, TameChar c) :
    MainRs.parse_tokens input = ParserRs.parse_tokens input := by
  rw [MainRs.parse_tokens, ParserRs.parse_tokens]
  exact tokStep_agree input.data.length input.data le_rfl [] [] false false H

/-- Witness for C10 at a concrete two-word line. -/
theorem c10_amended_witness :
    (∀ c ∈ ("echo hello").data, TameChar c) ∧
    MainRs.parse_tokens "echo hello" = ParserRs.parse_tokens "echo hello" :=
  ⟨by decide, c10_amended "echo hello" (by decide)⟩
